import Mathlib

set_option maxRecDepth 8000

/-!
# TruthPost contract — shallow embedding and verification

Shallow embedding of `src/contracts/truth_post.py` (a GenLayer intelligent
contract).  The contract state holds a `TreeMap` of claims keyed by string
identifiers, a `TreeMap` of reputation counters keyed by submitter address,
and a claim counter.

Modelling decisions:
* GenLayer's `TreeMap` is a key-ordered map; it is embedded as an association
  list kept sorted in strictly increasing key order, with iteration order the
  list order (this is what `get_claims`'s dict comprehension observes).
* Addresses are embedded as the hex strings the contract itself stores
  (`sender_address.as_hex`); `Address(s)` on a stored submitter hex string is
  the identity on this representation.
* `u256` counters are embedded as `Nat` (the contract only increments them
  by 1; the 2^256 bound is never approached by any behaviour the spec
  discusses).
* The nondeterministic fact-check (`gl.nondet` web render + prompt execution,
  reduced through `gl.eq_principle.strict_eq`) is external to the contract:
  its agreed outcome is passed to `resolve_claim` as an explicit argument —
  either a failure (an exception raised by the oracle/consensus machinery)
  or an agreed JSON object, of which the contract reads only the keys
  `"verdict"` (mandatory access `result["verdict"]`, a `KeyError` when
  absent) and `"explanation"` (defaulted access `result.get(...)`).
* Python exceptions are embedded with `Except`: an error outcome carries no
  successor state, matching the transactional semantics of the host (a
  raising public method leaves contract storage unchanged).  In the source
  every raise in `resolve_claim` happens before the first storage write, so
  the all-or-nothing reading is exact even statement-by-statement.
-/

/-- Claim record, from the `@allow_storage @dataclass class Claim`. -/
structure Claim where
  id : String
  text : String
  verdict : String
  explanation : String
  source_url : String
  submitter : String
  has_been_checked : Bool
deriving Repr, DecidableEq

/-- Contract state: fields `claims`, `reputation`, `claim_count` of
`class TruthPost`.  Both `TreeMap`s are sorted association lists. -/
structure TruthPost where
  claims : List (String × Claim)
  reputation : List (String × Nat)
  claim_count : Nat
deriving Repr, DecidableEq

/-- Lexicographic comparison of character lists by code point, the order in
which Python compares the `str` keys of the `TreeMap` (a strict prefix
precedes its extensions). -/
def charListLt : List Char → List Char → Bool
  | _, [] => false
  | [], _ :: _ => true
  | a :: as, b :: bs =>
    if a.toNat < b.toNat then true
    else if b.toNat < a.toNat then false
    else charListLt as bs

/-- Strict key order of the `TreeMap`: Python string comparison. -/
def strLt (s t : String) : Bool := charListLt s.data t.data

/-- `strLt` as a relation, for sortedness statements. -/
abbrev keyLt (s t : String) : Prop := strLt s t = true

/-- `TreeMap` lookup (`m[k]` / `k in m`): the value at key `k`, if any. -/
def tmGet {α : Type} (m : List (String × α)) (k : String) : Option α :=
  match m with
  | [] => none
  | (k', v) :: rest => if k = k' then some v else tmGet rest k

/-- `TreeMap` write (`m[k] = v`): ordered insert, replacing the entry when
the key is already present, keeping the list sorted in increasing key
order. -/
def tmSet {α : Type} (m : List (String × α)) (k : String) (v : α) :
    List (String × α) :=
  match m with
  | [] => [(k, v)]
  | (k', v') :: rest =>
    if strLt k k' then (k, v) :: (k', v') :: rest
    else if k = k' then (k, v) :: rest
    else (k', v') :: tmSet rest k v

/-- `TruthPost.__init__`: empty maps, `claim_count = 0`. -/
def initState : TruthPost := { claims := [], reputation := [], claim_count := 0 }

/-- Decimal digits of `n`, least significant first, by fuel recursion
(`fuel ≥ n` suffices). Embeds Python's `str(n)` digit extraction. -/
def decDigits : Nat → Nat → List Nat
  | 0, _ => []
  | _ + 1, 0 => []
  | fuel + 1, n + 1 => ((n + 1) % 10) :: decDigits fuel ((n + 1) / 10)

/-- Decimal rendering of a natural number, embedding Python's `str(n)` as it
appears in the f-string `f"claim_{self.claim_count}"`. -/
def decimalStr (n : Nat) : String :=
  if n = 0 then "0" else String.mk (((decDigits n n).map Nat.digitChar).reverse)

/-- The claim identifier `f"claim_{n}"`. -/
def claimKey (n : Nat) : String := "claim_" ++ decimalStr n

/-- Agreed fact-check result as `resolve_claim` consumes it: the JSON object
returned by `_fact_check`, restricted to the two keys the contract reads.
A `none` field models the key being absent from the agreed object. -/
structure OracleResult where
  verdict : Option String
  explanation : Option String
deriving Repr, DecidableEq

/-- Failure modes of `resolve_claim`, one per raising site reached from it. -/
inductive TPError where
  /-- `raise Exception("Claim not found")` -/
  | notFound
  /-- `raise Exception("Claim already fact-checked")` -/
  | alreadyResolved
  /-- `KeyError` from `result["verdict"]` when the agreed object lacks the key -/
  | verdictKeyError
  /-- an exception propagating out of `self._fact_check` (oracle failure or
  `gl.eq_principle.strict_eq` agreement failure), with its message -/
  | factCheckFailure (msg : String)
deriving Repr, DecidableEq

/-- `submit_claim(claim_text, source_url)` called by `sender`.  Increments the
counter, builds the pending claim and stores it under `f"claim_{count}"`.
The first component is the Python return value: the method is annotated
`-> None` and returns `None`, embedded as `(none : Option String)` (the spec
expects a claim identifier here, hence the `Option String` typing). -/
def submit_claim (st : TruthPost) (claim_text source_url sender : String) :
    Option String × TruthPost :=
  let count := st.claim_count + 1
  let claim_id := claimKey count
  let claim : Claim :=
    { id := claim_id
      text := claim_text
      verdict := "pending"
      explanation := ""
      source_url := source_url
      submitter := sender
      has_been_checked := false }
  (none, { st with claim_count := count, claims := tmSet st.claims claim_id claim })

/-- The reputation update of `resolve_claim`, verbatim from the source:
`if submitter_addr not in self.reputation: self.reputation[submitter_addr] = 0`
followed by `self.reputation[submitter_addr] += 1`. -/
def repIncrement (rep : List (String × Nat)) (s : String) : List (String × Nat) :=
  let rep0 :=
    match tmGet rep s with
    | none => tmSet rep s 0
    | some _ => rep
  tmSet rep0 s ((tmGet rep0 s).getD 0 + 1)

/-- `resolve_claim(claim_id)`.  `factCheck` is the outcome of
`self._fact_check(claim.text, claim.source_url)`: `Except.error msg` when the
oracle/consensus machinery raises, `Except.ok result` when it returns an
agreed object.  Mirrors the source line by line: the not-found and
already-checked guards, then the fact check, then `result["verdict"]`
(KeyError when absent), `result.get("explanation", "")`, setting
`has_been_checked`, and the two-step reputation update. -/
def resolve_claim (st : TruthPost) (claim_id : String)
    (factCheck : Except String OracleResult) : Except TPError TruthPost :=
  match tmGet st.claims claim_id with
  | none => .error .notFound
  | some claim =>
    if claim.has_been_checked then .error .alreadyResolved
    else
      match factCheck with
      | .error msg => .error (.factCheckFailure msg)
      | .ok result =>
        match result.verdict with
        | none => .error .verdictKeyError
        | some v =>
          let claim' : Claim :=
            { claim with
                verdict := v
                explanation := result.explanation.getD ""
                has_been_checked := true }
          .ok { st with
                  claims := tmSet st.claims claim_id claim'
                  reputation := repIncrement st.reputation claim.submitter }

/-- `get_claims()`: the dict comprehension over `self.claims.items()`, i.e.
all stored `(id, claim)` pairs in the `TreeMap`'s iteration order. -/
def get_claims (st : TruthPost) : List (String × Claim) := st.claims

/-- `get_claim(claim_id)`: the claim's fields, or "Claim not found". -/
def get_claim (st : TruthPost) (claim_id : String) : Except TPError Claim :=
  match tmGet st.claims claim_id with
  | none => .error .notFound
  | some claim => .ok claim

/-- `get_reputation()`: all `(address_hex, score)` pairs. -/
def get_reputation (st : TruthPost) : List (String × Nat) := st.reputation

/-- `get_user_reputation(user_address)`: `self.reputation.get(..., 0)`. -/
def get_user_reputation (st : TruthPost) (user_address : String) : Nat :=
  (tmGet st.reputation user_address).getD 0

/-- The three verdict labels the specification allows for a resolved claim. -/
def allowedVerdicts : List String := ["true", "false", "partially_true"]

/-- Run a sequence of `submit_claim` calls; each list element is
`(claim_text, source_url, sender)`. -/
def runSubmits (st : TruthPost) (l : List (String × String × String)) : TruthPost :=
  l.foldl (fun s p => (submit_claim s p.1 p.2.1 p.2.2).2) st

/-- Number of stored claims whose `submitter` is `idy` and whose
`has_been_checked` flag is true (the count the reputation invariant is
stated against; note it does not look at the verdict). -/
def checkedBy (m : List (String × Claim)) (idy : String) : Nat :=
  m.countP (fun p => p.2.submitter == idy && p.2.has_been_checked)

/-- States reachable from a fresh deployment by the contract's two write
methods; a failing `resolve_claim` raises and leaves storage unchanged, so
only the `.ok` outcome produces a new state. -/
inductive Reachable : TruthPost → Prop where
  | init : Reachable initState
  | submit (st : TruthPost) (t u s : String) (h : Reachable st) :
      Reachable (submit_claim st t u s).2
  | resolve (st st' : TruthPost) (cid : String) (fc : Except String OracleResult)
      (h : Reachable st) (hr : resolve_claim st cid fc = .ok st') : Reachable st'

/-- Internal invariant carried through every reachable state. -/
structure TPInv (st : TruthPost) : Prop where
  sortedClaims : (st.claims.map Prod.fst).Pairwise keyLt
  sortedRep : (st.reputation.map Prod.fst).Pairwise keyLt
  keysBound : ∀ k ∈ st.claims.map Prod.fst,
    ∃ i, 1 ≤ i ∧ i ≤ st.claim_count ∧ k = claimKey i
  repCount : ∀ idy, (tmGet st.reputation idy).getD 0 = checkedBy st.claims idy

/-- Concrete state: one claim submitted by `alice`. -/
def exSt1 : TruthPost :=
  (submit_claim initState "Python was created by Guido van Rossum"
    "https://en.wikipedia.org/wiki/Python" "alice").2

/-- A well-formed agreed fact-check result. -/
def exResTrue : OracleResult :=
  { verdict := some "true", explanation := some "The source confirms it." }

/-- Concrete state: the claim of `exSt1` successfully resolved. -/
def exStResolved : TruthPost :=
  (resolve_claim exSt1 "claim_1" (Except.ok exResTrue)).toOption.getD initState

/-- An agreed fact-check result whose verdict lies outside the three-label
enumeration. -/
def exResBad : OracleResult :=
  { verdict := some "maybe", explanation := some "ambiguous" }

/-- Concrete state: the claim of `exSt1` resolved with the out-of-enum
verdict of `exResBad`. -/
def exStBad : TruthPost :=
  (resolve_claim exSt1 "claim_1" (Except.ok exResBad)).toOption.getD initState

/-- The pending claim stored in `exSt1`. -/
def exClaim1 : Claim :=
  { id := "claim_1"
    text := "Python was created by Guido van Rossum"
    verdict := "pending"
    explanation := ""
    source_url := "https://en.wikipedia.org/wiki/Python"
    submitter := "alice"
    has_been_checked := false }

/-- The resolved claim stored in `exStResolved`. -/
def exClaimResolved : Claim :=
  { exClaim1 with
      verdict := "true"
      explanation := "The source confirms it."
      has_been_checked := true }

/-- A well-formed agreed result with a `"false"` verdict. -/
def exResFalse : OracleResult := { verdict := some "false", explanation := some "No." }

/-- Concrete state: a second claim submitted by `bob` on top of
`exStResolved`. -/
def exSt2 : TruthPost :=
  (submit_claim exStResolved "The Moon is made of cheese" "https://example.org" "bob").2

/-- Concrete state: the second claim of `exSt2` resolved as `"false"`. -/
def exSt2Resolved : TruthPost :=
  (resolve_claim exSt2 "claim_2" (Except.ok exResFalse)).toOption.getD initState

/-- Concrete state: the claim of `exSt1` resolved by an agreed result with no
`"explanation"` key. -/
def exStNoExp : TruthPost :=
  (resolve_claim exSt1 "claim_1"
    (Except.ok { verdict := some "true", explanation := none })).toOption.getD initState

/-- Two submissions with distinct texts, sources and senders. -/
def exSubs2 : List (String × String × String) := [("a", "b", "s1"), ("c", "d", "s2")]

/-- Ten identical submissions, enough for key order and submission order to
diverge. -/
def exSubs10 : List (String × String × String) := List.replicate 10 ("t", "u", "s")

example : decimalStr 0 = "0" := by decide
example : decimalStr 7 = "7" := by decide
example : decimalStr 12 = "12" := by decide
example : decimalStr 105 = "105" := by decide
example : claimKey 10 = "claim_10" := by decide
example : ∀ n < 200, decimalStr n = Nat.repr n := by decide

/-! ## Key-order lemmas -/

theorem charListLt_irrefl : ∀ l : List Char, charListLt l l = false := by
  intro l
  induction l with
  | nil => rfl
  | cons a t ih => simp [charListLt, Nat.lt_irrefl, ih]

theorem strLt_irrefl (s : String) : strLt s s = false := charListLt_irrefl s.data

theorem charListLt_trans : ∀ a b c : List Char, charListLt a b = true →
    charListLt b c = true → charListLt a c = true := by
  intro a
  induction a with
  | nil =>
    intro b c hab hbc
    cases c with
    | nil => simp [charListLt] at hbc
    | cons c₀ cs => rfl
  | cons a₀ as ih =>
    intro b c hab hbc
    cases b with
    | nil => simp [charListLt] at hab
    | cons b₀ bs =>
      cases c with
      | nil => simp [charListLt] at hbc
      | cons c₀ cs =>
        simp only [charListLt] at hab hbc ⊢
        by_cases h1 : a₀.toNat < b₀.toNat
        · by_cases h2 : b₀.toNat < c₀.toNat
          · simp [Nat.lt_trans h1 h2]
          · simp only [h2, if_false] at hbc
            by_cases h3 : c₀.toNat < b₀.toNat
            · simp [h3] at hbc
            · have hac : a₀.toNat < c₀.toNat := by omega
              simp [hac]
        · simp only [h1, if_false] at hab
          by_cases h3 : b₀.toNat < a₀.toNat
          · simp [h3] at hab
          · simp only [h3, if_false] at hab
            by_cases h2 : b₀.toNat < c₀.toNat
            · have hac : a₀.toNat < c₀.toNat := by omega
              simp [hac]
            · simp only [h2, if_false] at hbc
              by_cases h4 : c₀.toNat < b₀.toNat
              · simp [h4] at hbc
              · simp only [h4, if_false] at hbc
                have h5 : ¬a₀.toNat < c₀.toNat := by omega
                have h6 : ¬c₀.toNat < a₀.toNat := by omega
                simp only [h5, h6, if_false]
                exact ih bs cs hab hbc

theorem strLt_trans {a b c : String} (h1 : strLt a b = true)
    (h2 : strLt b c = true) : strLt a c = true :=
  charListLt_trans a.data b.data c.data h1 h2

theorem charListLt_connex : ∀ a b : List Char, charListLt a b = false → a ≠ b →
    charListLt b a = true := by
  intro a
  induction a with
  | nil =>
    intro b hab hne
    cases b with
    | nil => exact absurd rfl hne
    | cons b₀ bs => simp [charListLt] at hab
  | cons a₀ as ih =>
    intro b hab hne
    cases b with
    | nil => rfl
    | cons b₀ bs =>
      simp only [charListLt] at hab ⊢
      by_cases h1 : a₀.toNat < b₀.toNat
      · simp [h1] at hab
      · by_cases h2 : b₀.toNat < a₀.toNat
        · simp [h2]
        · simp only [h1, h2, if_false] at hab
          have hchar : a₀ = b₀ := by
            apply Char.ext
            apply UInt32.ext
            show a₀.toNat = b₀.toNat
            omega
          subst hchar
          have hts : as ≠ bs := by
            intro h
            exact hne (by rw [h])
          simp only [Nat.lt_irrefl, if_false]
          exact ih bs hab hts

theorem strLt_connex {a b : String} (h : strLt a b = false) (hne : a ≠ b) :
    strLt b a = true := by
  apply charListLt_connex _ _ h
  intro hd
  apply hne
  cases a
  cases b
  simp only at hd
  rw [hd]

theorem strLt_asymm {a b : String} (h : strLt a b = true) : strLt b a = false := by
  cases hba : strLt b a with
  | false => rfl
  | true =>
    have := strLt_trans h hba
    rw [strLt_irrefl] at this
    exact Bool.noConfusion this

/-! ## TreeMap lemmas -/

theorem tmGet_tmSet {α : Type} (m : List (String × α)) (k k' : String) (v : α) :
    tmGet (tmSet m k v) k' = if k' = k then some v else tmGet m k' := by
  induction m with
  | nil => simp [tmSet, tmGet]
  | cons hd tl ih =>
    obtain ⟨k₀, v₀⟩ := hd
    by_cases hlt : strLt k k₀ = true
    · simp [tmSet, hlt, tmGet]
    · by_cases heq : k = k₀
      · subst heq
        simp only [tmSet, hlt, if_false, if_pos rfl, tmGet]
        by_cases h0 : k' = k <;> simp [h0]
      · simp only [tmSet, hlt, heq, if_false, tmGet, ih]
        by_cases h0 : k' = k₀
        · subst h0
          simp [Ne.symm heq]
        · simp [h0]

theorem tmGet_eq_none_iff {α : Type} (m : List (String × α)) (k : String) :
    tmGet m k = none ↔ k ∉ m.map Prod.fst := by
  induction m with
  | nil => simp [tmGet]
  | cons hd tl ih =>
    obtain ⟨k₀, v₀⟩ := hd
    by_cases h : k = k₀
    · subst h; simp [tmGet]
    · simp [tmGet, h, ih]

theorem tmGet_some_mem {α : Type} {m : List (String × α)} {k : String} {v : α}
    (h : tmGet m k = some v) : k ∈ m.map Prod.fst := by
  by_contra hmem
  rw [← tmGet_eq_none_iff] at hmem
  rw [h] at hmem
  exact Option.noConfusion hmem

theorem mem_keys_tmSet {α : Type} (m : List (String × α)) (k : String) (v : α)
    (k' : String) :
    k' ∈ (tmSet m k v).map Prod.fst ↔ k' = k ∨ k' ∈ m.map Prod.fst := by
  induction m with
  | nil => simp [tmSet]
  | cons hd tl ih =>
    obtain ⟨k₀, v₀⟩ := hd
    by_cases hlt : strLt k k₀ = true
    · simp [tmSet, hlt]
    · by_cases heq : k = k₀
      · subst heq
        simp only [tmSet, hlt, if_false, if_pos rfl]
        simp
      · have hlt' : strLt k k₀ = false := by
          cases hb : strLt k k₀
          · rfl
          · exact absurd hb hlt
        simp only [tmSet, hlt', Bool.false_eq_true, if_false, if_neg heq,
          List.map_cons, List.mem_cons, ih]
        tauto

theorem pairwise_keys_tmSet {α : Type} (m : List (String × α)) (k : String) (v : α)
    (h : (m.map Prod.fst).Pairwise keyLt) :
    ((tmSet m k v).map Prod.fst).Pairwise keyLt := by
  induction m with
  | nil => simp [tmSet]
  | cons hd tl ih =>
    obtain ⟨k₀, v₀⟩ := hd
    rw [List.map_cons, List.pairwise_cons] at h
    obtain ⟨hlt₀, htl⟩ := h
    by_cases hlt : strLt k k₀ = true
    · simp only [tmSet, if_pos hlt, List.map_cons, List.pairwise_cons]
      refine ⟨?_, ?_⟩
      · intro x hx
        rcases List.mem_cons.mp hx with h1 | h1
        · exact h1 ▸ hlt
        · exact strLt_trans hlt (hlt₀ x h1)
      · exact ⟨hlt₀, htl⟩
    · by_cases heq : k = k₀
      · subst heq
        have hset : tmSet ((k, v₀) :: tl) k v = (k, v) :: tl := by
          simp [tmSet, hlt]
        rw [hset, List.map_cons, List.pairwise_cons]
        exact ⟨hlt₀, htl⟩
      · have hgt : strLt k₀ k = true := by
          apply strLt_connex _ heq
          cases hkk : strLt k k₀ with
          | false => rfl
          | true => exact absurd hkk hlt
        simp only [tmSet, if_neg hlt, if_neg heq, List.map_cons, List.pairwise_cons]
        refine ⟨?_, ih htl⟩
        intro x hx
        rcases (mem_keys_tmSet tl k v x).mp hx with h1 | h1
        · exact h1 ▸ hgt
        · exact hlt₀ x h1

/-! ## Claim-identifier lemmas -/

theorem ofDigits_decDigits (fuel : Nat) :
    ∀ n : Nat, n ≤ fuel → Nat.ofDigits 10 (decDigits fuel n) = n := by
  induction fuel with
  | zero =>
    intro n hn
    interval_cases n
    simp [decDigits, Nat.ofDigits]
  | succ f ih =>
    intro n hn
    match n with
    | 0 => simp [decDigits, Nat.ofDigits]
    | m + 1 =>
      rw [decDigits, Nat.ofDigits_cons, ih ((m + 1) / 10) ?_]
      · omega
      · have h1 : (m + 1) / 10 < m + 1 := Nat.div_lt_self (Nat.succ_pos m) (by omega)
        omega

theorem decDigits_lt_ten (fuel : Nat) :
    ∀ n : Nat, ∀ d ∈ decDigits fuel n, d < 10 := by
  induction fuel with
  | zero => intro n d hd; simp [decDigits] at hd
  | succ f ih =>
    intro n d hd
    match n with
    | 0 => simp [decDigits] at hd
    | m + 1 =>
      rw [decDigits] at hd
      rcases List.mem_cons.mp hd with h | h
      · subst h; exact Nat.mod_lt _ (by omega)
      · exact ih _ d h

theorem digitChar_inj_lt :
    ∀ d₁ < 10, ∀ d₂ < 10, Nat.digitChar d₁ = Nat.digitChar d₂ → d₁ = d₂ := by decide

theorem map_digitChar_inj :
    ∀ l₁ l₂ : List Nat, (∀ d ∈ l₁, d < 10) → (∀ d ∈ l₂, d < 10) →
      l₁.map Nat.digitChar = l₂.map Nat.digitChar → l₁ = l₂ := by
  intro l₁
  induction l₁ with
  | nil =>
    intro l₂ _ _ h
    cases l₂ with
    | nil => rfl
    | cons b t => simp at h
  | cons a t iht =>
    intro l₂ h₁ h₂ h
    cases l₂ with
    | nil => simp at h
    | cons b t₂ =>
      simp only [List.map_cons, List.cons.injEq] at h
      obtain ⟨hab, ht⟩ := h
      have ha : a < 10 := h₁ a (List.mem_cons_self a t)
      have hb : b < 10 := h₂ b (List.mem_cons_self b t₂)
      have : a = b := digitChar_inj_lt a ha b hb hab
      subst this
      have : t = t₂ :=
        iht t₂ (fun d hd => h₁ d (List.mem_cons_of_mem a hd))
          (fun d hd => h₂ d (List.mem_cons_of_mem a hd)) ht
      rw [this]

theorem decimalStr_injective : Function.Injective decimalStr := by
  intro m n h
  unfold decimalStr at h
  have hdata := congrArg String.data h
  by_cases hm : m = 0 <;> by_cases hn : n = 0
  · rw [hm, hn]
  · exfalso
    simp only [hm, hn, if_pos rfl, if_neg hn] at hdata
    have hrev : List.reverse ((decDigits n n).map Nat.digitChar) = [Nat.digitChar 0] := by
      exact hdata.symm
    have hmap : (decDigits n n).map Nat.digitChar = [Nat.digitChar 0] := by
      have := congrArg List.reverse hrev
      simpa using this
    have hd : decDigits n n = [0] :=
      map_digitChar_inj (decDigits n n) [0] (decDigits_lt_ten n n)
        (by intro d hd; simp at hd; omega) hmap
    have := ofDigits_decDigits n n le_rfl
    rw [hd] at this
    simp [Nat.ofDigits] at this
    exact hn this.symm
  · exfalso
    simp only [hm, hn, if_pos rfl, if_neg hm] at hdata
    have hmap : (decDigits m m).map Nat.digitChar = [Nat.digitChar 0] := by
      have := congrArg List.reverse hdata
      simpa using this
    have hd : decDigits m m = [0] :=
      map_digitChar_inj (decDigits m m) [0] (decDigits_lt_ten m m)
        (by intro d hd; simp at hd; omega) hmap
    have := ofDigits_decDigits m m le_rfl
    rw [hd] at this
    simp [Nat.ofDigits] at this
    exact hm this.symm
  · simp only [if_neg hm, if_neg hn] at hdata
    have hrev := congrArg List.reverse hdata
    simp only [List.reverse_reverse] at hrev
    have hd : decDigits m m = decDigits n n :=
      map_digitChar_inj _ _ (decDigits_lt_ten m m) (decDigits_lt_ten n n) hrev
    have h1 := ofDigits_decDigits m m le_rfl
    have h2 := ofDigits_decDigits n n le_rfl
    rw [hd] at h1
    rw [h2] at h1
    exact h1.symm

theorem claimKey_injective : Function.Injective claimKey := by
  intro m n h
  apply decimalStr_injective
  unfold claimKey at h
  have hdata := congrArg String.data h
  simp only [String.data_append] at hdata
  have : (decimalStr m).data = (decimalStr n).data :=
    List.append_cancel_left hdata
  cases hm : decimalStr m
  cases hn : decimalStr n
  rw [hm, hn] at this
  simp at this
  rw [this]

/-! ## Counting and reputation lemmas -/

theorem checkedBy_tmSet_unchecked (m : List (String × Claim)) (k : String)
    (c : Claim) (idy : String) (hk : k ∉ m.map Prod.fst)
    (hc : c.has_been_checked = false) :
    checkedBy (tmSet m k c) idy = checkedBy m idy := by
  induction m with
  | nil => simp [tmSet, checkedBy, List.countP_cons, hc]
  | cons hd tl ih =>
    obtain ⟨k₀, v₀⟩ := hd
    simp only [List.map_cons, List.mem_cons, not_or] at hk
    obtain ⟨hne, hk'⟩ := hk
    by_cases hlt : strLt k k₀ = true
    · simp only [tmSet, if_pos hlt, checkedBy, List.countP_cons]
      simp [hc]
    · simp only [tmSet, if_neg hlt, if_neg hne, checkedBy, List.countP_cons]
      have := ih hk'
      simp only [checkedBy] at this
      omega

theorem checkedBy_tmSet_checked (m : List (String × Claim))
    (hs : (m.map Prod.fst).Pairwise keyLt) (k : String) (c c' : Claim)
    (hget : tmGet m k = some c) (hc : c.has_been_checked = false)
    (hc' : c'.has_been_checked = true) (hsub : c'.submitter = c.submitter)
    (idy : String) :
    checkedBy (tmSet m k c') idy =
      checkedBy m idy + (if c.submitter = idy then 1 else 0) := by
  induction m with
  | nil => simp [tmGet] at hget
  | cons hd tl ih =>
    obtain ⟨k₀, v₀⟩ := hd
    rw [List.map_cons, List.pairwise_cons] at hs
    obtain ⟨hall, htl⟩ := hs
    by_cases heq : k = k₀
    · subst heq
      rw [tmGet, if_pos rfl] at hget
      have hv : c = v₀ := by
        injection hget with h
        exact h.symm
      subst hv
      have hlt : ¬strLt k k = true := by simp [strLt_irrefl]
      have hset : tmSet ((k, c) :: tl) k c' = (k, c') :: tl := by
        simp [tmSet, strLt_irrefl]
      rw [hset, checkedBy, checkedBy, List.countP_cons, List.countP_cons]
      simp only [hsub, hc, hc', Bool.and_true, Bool.and_false]
      by_cases hid : c.submitter = idy
      · simp [hid]
      · simp [hid]
    · rw [tmGet, if_neg heq] at hget
      have hmem : k ∈ tl.map Prod.fst := tmGet_some_mem hget
      have hgt : strLt k₀ k = true := hall k hmem
      have hlt : ¬strLt k k₀ = true := by simp [strLt_asymm hgt]
      simp only [tmSet, if_neg hlt, if_neg heq, checkedBy, List.countP_cons]
      have := ih htl hget
      simp only [checkedBy] at this
      omega

theorem tmGet_repIncrement (rep : List (String × Nat)) (s idy : String) :
    (tmGet (repIncrement rep s) idy).getD 0 =
      if idy = s then (tmGet rep s).getD 0 + 1 else (tmGet rep idy).getD 0 := by
  cases hs : tmGet rep s with
  | none =>
    simp only [repIncrement, hs]
    by_cases h : idy = s
    · subst h; simp [tmGet_tmSet, hs]
    · simp [tmGet_tmSet, h, hs]
  | some r =>
    simp only [repIncrement, hs]
    by_cases h : idy = s
    · subst h; simp [tmGet_tmSet, hs]
    · simp [tmGet_tmSet, h]

theorem tmGet_repIncrement_ne (rep : List (String × Nat)) (s idy : String)
    (h : idy ≠ s) : tmGet (repIncrement rep s) idy = tmGet rep idy := by
  cases hs : tmGet rep s <;> simp [repIncrement, hs, tmGet_tmSet, h]

theorem pairwise_keys_repIncrement (rep : List (String × Nat)) (s : String)
    (h : (rep.map Prod.fst).Pairwise keyLt) :
    ((repIncrement rep s).map Prod.fst).Pairwise keyLt := by
  cases hs : tmGet rep s with
  | none =>
    simp only [repIncrement, hs]
    exact pairwise_keys_tmSet _ _ _ (pairwise_keys_tmSet _ _ _ h)
  | some r =>
    simp only [repIncrement, hs]
    exact pairwise_keys_tmSet _ _ _ h

/-! ## Inversion of a successful resolution -/

theorem resolve_claim_ok_inv {st st' : TruthPost} {cid : String}
    {fc : Except String OracleResult}
    (hr : resolve_claim st cid fc = .ok st') :
    ∃ claim result v,
      tmGet st.claims cid = some claim ∧
      claim.has_been_checked = false ∧
      fc = .ok result ∧
      result.verdict = some v ∧
      st' = { st with
                claims := tmSet st.claims cid
                  { claim with
                      verdict := v
                      explanation := result.explanation.getD ""
                      has_been_checked := true }
                reputation := repIncrement st.reputation claim.submitter } := by
  unfold resolve_claim at hr
  split at hr
  · exact absurd hr (by simp)
  next claim hget =>
    split at hr
    · exact absurd hr (by simp)
    next hc =>
      have hc' : claim.has_been_checked = false := by
        simpa using hc
      split at hr
      · exact absurd hr (by simp)
      next result =>
        split at hr
        · exact absurd hr (by simp)
        next v hv =>
          refine ⟨claim, result, v, hget, hc', rfl, hv, ?_⟩
          simp only [Except.ok.injEq] at hr
          exact hr.symm

/-! ## The invariant holds in every reachable state -/

theorem submit_claim_eq (st : TruthPost) (t u s : String) :
    submit_claim st t u s =
      (none,
        { claims := tmSet st.claims (claimKey (st.claim_count + 1))
            { id := claimKey (st.claim_count + 1)
              text := t
              verdict := "pending"
              explanation := ""
              source_url := u
              submitter := s
              has_been_checked := false }
          reputation := st.reputation
          claim_count := st.claim_count + 1 }) := rfl

theorem submit_claim_snd (st : TruthPost) (t u s : String) :
    (submit_claim st t u s).2 =
      { claims := tmSet st.claims (claimKey (st.claim_count + 1))
          { id := claimKey (st.claim_count + 1)
            text := t
            verdict := "pending"
            explanation := ""
            source_url := u
            submitter := s
            has_been_checked := false }
        reputation := st.reputation
        claim_count := st.claim_count + 1 } := rfl

theorem claimKey_fresh (st : TruthPost) (h : TPInv st) :
    claimKey (st.claim_count + 1) ∉ st.claims.map Prod.fst := by
  intro hmem
  obtain ⟨i, h1, h2, h3⟩ := h.keysBound _ hmem
  have : i = st.claim_count + 1 := claimKey_injective h3.symm
  omega

theorem inv_submit (st : TruthPost) (t u s : String) (h : TPInv st) :
    TPInv (submit_claim st t u s).2 := by
  have hfresh := claimKey_fresh st h
  rw [submit_claim_snd]
  constructor
  · exact pairwise_keys_tmSet _ _ _ h.sortedClaims
  · exact h.sortedRep
  · intro k hk
    rcases (mem_keys_tmSet _ _ _ k).mp hk with h1 | h1
    · exact ⟨st.claim_count + 1, by omega, le_rfl, h1⟩
    · obtain ⟨i, hi1, hi2, hi3⟩ := h.keysBound k h1
      refine ⟨i, hi1, ?_, hi3⟩
      show i ≤ st.claim_count + 1
      omega
  · intro idy
    show (tmGet st.reputation idy).getD 0 = checkedBy (tmSet st.claims _ _) idy
    rw [checkedBy_tmSet_unchecked _ _ _ _ hfresh rfl]
    exact h.repCount idy

theorem inv_resolve (st st' : TruthPost) (cid : String)
    (fc : Except String OracleResult) (h : TPInv st)
    (hr : resolve_claim st cid fc = .ok st') : TPInv st' := by
  obtain ⟨claim, result, v, hget, hc, hfc, hv, hst'⟩ := resolve_claim_ok_inv hr
  subst hst'
  constructor
  · exact pairwise_keys_tmSet _ _ _ h.sortedClaims
  · exact pairwise_keys_repIncrement _ _ h.sortedRep
  · intro k hk
    rcases (mem_keys_tmSet _ _ _ k).mp hk with h1 | h1
    · subst h1
      exact h.keysBound _ (tmGet_some_mem hget)
    · exact h.keysBound k h1
  · intro idy
    show (tmGet (repIncrement st.reputation claim.submitter) idy).getD 0 =
      checkedBy (tmSet st.claims cid
        { claim with
            verdict := v
            explanation := result.explanation.getD ""
            has_been_checked := true }) idy
    rw [tmGet_repIncrement,
      checkedBy_tmSet_checked st.claims h.sortedClaims cid claim
        { claim with
            verdict := v
            explanation := result.explanation.getD ""
            has_been_checked := true } hget hc rfl rfl idy]
    by_cases hid : idy = claim.submitter
    · subst hid
      simp [h.repCount claim.submitter]
    · have : claim.submitter ≠ idy := Ne.symm hid
      simp [hid, this, h.repCount idy]

theorem inv_init : TPInv initState := by
  constructor
  · simp [initState]
  · simp [initState]
  · intro k hk
    simp [initState] at hk
  · intro idy
    simp [initState, tmGet, checkedBy]

theorem reachable_inv {st : TruthPost} (h : Reachable st) : TPInv st := by
  induction h with
  | init => exact inv_init
  | submit st t u s h ih => exact inv_submit st t u s ih
  | resolve st st' cid fc h hr ih => exact inv_resolve st st' cid fc ih hr

/-! ## Submission sequences -/

theorem runSubmits_nil (st : TruthPost) : runSubmits st [] = st := rfl

theorem runSubmits_cons (st : TruthPost) (p : String × String × String)
    (l : List (String × String × String)) :
    runSubmits st (p :: l) = runSubmits (submit_claim st p.1 p.2.1 p.2.2).2 l := rfl

theorem runSubmits_append (st : TruthPost) (l₁ l₂ : List (String × String × String)) :
    runSubmits st (l₁ ++ l₂) = runSubmits (runSubmits st l₁) l₂ := by
  simp [runSubmits]

theorem runSubmits_count (l : List (String × String × String)) :
    ∀ st : TruthPost, (runSubmits st l).claim_count = st.claim_count + l.length := by
  induction l with
  | nil => intro st; simp [runSubmits_nil]
  | cons p tl ih =>
    intro st
    rw [runSubmits_cons, ih, submit_claim_eq]
    simp
    omega

theorem runSubmits_reachable (l : List (String × String × String)) :
    ∀ st : TruthPost, Reachable st → Reachable (runSubmits st l) := by
  induction l with
  | nil => intro st h; exact h
  | cons p tl ih =>
    intro st h
    rw [runSubmits_cons]
    exact ih _ (Reachable.submit st p.1 p.2.1 p.2.2 h)

/-! ## Reachability of the concrete states -/

theorem reachable_exSt1 : Reachable exSt1 :=
  Reachable.submit initState "Python was created by Guido van Rossum"
    "https://en.wikipedia.org/wiki/Python" "alice" Reachable.init

theorem reachable_exStResolved : Reachable exStResolved :=
  Reachable.resolve exSt1 exStResolved "claim_1" (Except.ok exResTrue)
    reachable_exSt1 (by rfl)

theorem reachable_exStBad : Reachable exStBad :=
  Reachable.resolve exSt1 exStBad "claim_1" (Except.ok exResBad)
    reachable_exSt1 (by rfl)

theorem reachable_exSt2 : Reachable exSt2 :=
  Reachable.submit exStResolved "The Moon is made of cheese"
    "https://example.org" "bob" reachable_exStResolved

/-! ## Claim C1 -/

/-- C1 counterexample: `resolve_claim` performs no validation of the agreed
verdict value.  At the reachable state `exSt1`, resolving with the agreed
result `{"verdict": "maybe", ...}` does not fail: it succeeds and writes the
out-of-enum value `"maybe"`, producing a reachable state whose checked claim
has a verdict outside the three-label set — contradicting the claim that an
out-of-enum verdict fails with `InvalidVerdict` and is never written. -/
theorem resolve_claim_out_of_enum_written_cex :
    resolve_claim exSt1 "claim_1" (Except.ok exResBad) = Except.ok exStBad ∧
    Reachable exStBad ∧
    (tmGet exStBad.claims "claim_1").map Claim.has_been_checked = some true ∧
    (tmGet exStBad.claims "claim_1").map Claim.verdict = some "maybe" ∧
    "maybe" ∉ allowedVerdicts := by
  exact ⟨by rfl, reachable_exStBad, by decide, by decide, by decide⟩

/-- C1 amended: the only parse failure `resolve_claim` produces on an agreed
result is the missing-`"verdict"`-key error (a `KeyError`, not a three-label
validation): when the `"verdict"` key is present, its value — in the allowed
set or not — is written to the claim unvalidated and the resolution
succeeds. -/
theorem resolve_claim_verdict_unvalidated (st : TruthPost) (cid : String)
    (claim : Claim) (hget : tmGet st.claims cid = some claim)
    (hc : claim.has_been_checked = false) :
    (∀ e, resolve_claim st cid (Except.ok { verdict := none, explanation := e }) =
      Except.error TPError.verdictKeyError) ∧
    (∀ result v, result.verdict = some v →
      ∃ st', resolve_claim st cid (Except.ok result) = Except.ok st' ∧
        (tmGet st'.claims cid).map Claim.verdict = some v ∧
        (tmGet st'.claims cid).map Claim.has_been_checked = some true) := by
  constructor
  · intro e
    simp [resolve_claim, hget, hc]
  · intro result v hv
    refine ⟨{ st with
        claims := tmSet st.claims cid
          { claim with
              verdict := v
              explanation := result.explanation.getD ""
              has_been_checked := true }
        reputation := repIncrement st.reputation claim.submitter }, ?_, ?_, ?_⟩
    · simp [resolve_claim, hget, hc, hv]
    · show (tmGet (tmSet st.claims cid _) cid).map Claim.verdict = some v
      rw [tmGet_tmSet, if_pos rfl]
      rfl
    · show (tmGet (tmSet st.claims cid _) cid).map Claim.has_been_checked = some true
      rw [tmGet_tmSet, if_pos rfl]
      rfl

/-- C1 amended, witnessed at the concrete state `exSt1`. -/
theorem resolve_claim_verdict_unvalidated_witness :
    resolve_claim exSt1 "claim_1"
      (Except.ok { verdict := none, explanation := some "x" }) =
      Except.error TPError.verdictKeyError ∧
    (tmGet exStBad.claims "claim_1").map Claim.verdict = some "maybe" := by
  have h := resolve_claim_verdict_unvalidated exSt1 "claim_1" exClaim1
    (by decide) rfl
  refine ⟨h.1 (some "x"), ?_⟩
  obtain ⟨st', h1, h2, h3⟩ := h.2 exResBad "maybe" rfl
  have h4 : Except.ok st' = Except.ok exStBad := h1.symm.trans (by rfl)
  injection h4 with h5
  rw [← h5]
  exact h2

/-! ## Claim C2 -/

/-- C2: `resolve_claim` fails with the not-found error when the id is absent
and with the already-resolved error when the claim's checked flag is already
true (in the `Except` embedding an error outcome carries no successor state,
so neither failure mutates anything); after a successful resolution, a second
call on the same id is rejected with the already-resolved error, and the one
successful call accounts for exactly one reputation increment for the
submitter. -/
theorem resolve_claim_guards_and_idempotent (st : TruthPost) (cid : String) :
    (∀ fc, tmGet st.claims cid = none →
      resolve_claim st cid fc = Except.error TPError.notFound) ∧
    (∀ fc claim, tmGet st.claims cid = some claim → claim.has_been_checked = true →
      resolve_claim st cid fc = Except.error TPError.alreadyResolved) ∧
    (∀ fc st', resolve_claim st cid fc = Except.ok st' →
      (∀ fc', resolve_claim st' cid fc' = Except.error TPError.alreadyResolved) ∧
      (∀ claim, tmGet st.claims cid = some claim →
        get_user_reputation st' claim.submitter =
          get_user_reputation st claim.submitter + 1)) := by
  refine ⟨?_, ?_, ?_⟩
  · intro fc h
    simp [resolve_claim, h]
  · intro fc claim hget hch
    simp [resolve_claim, hget, hch]
  · intro fc st' hr
    obtain ⟨claim, result, v, hget, hc, hfc, hv, hst'⟩ := resolve_claim_ok_inv hr
    constructor
    · intro fc'
      have hget' : tmGet st'.claims cid = some
          { claim with
              verdict := v
              explanation := result.explanation.getD ""
              has_been_checked := true } := by
        rw [hst']
        show tmGet (tmSet st.claims cid _) cid = _
        rw [tmGet_tmSet, if_pos rfl]
      simp [resolve_claim, hget']
    · intro claim₀ hget₀
      have hceq : claim = claim₀ := by
        rw [hget] at hget₀
        injection hget₀
      subst hceq
      rw [hst']
      show (tmGet (repIncrement st.reputation claim.submitter)
        claim.submitter).getD 0 = (tmGet st.reputation claim.submitter).getD 0 + 1
      rw [tmGet_repIncrement]
      simp

/-- C2, witnessed: an unknown id at the initial state, the concrete
resolution `exSt1 → exStResolved` and the rejected second call on it. -/
theorem resolve_claim_guards_and_idempotent_witness :
    resolve_claim initState "claim_1" (Except.ok exResTrue) =
      Except.error TPError.notFound ∧
    resolve_claim exStResolved "claim_1" (Except.ok exResTrue) =
      Except.error TPError.alreadyResolved ∧
    get_user_reputation exStResolved "alice" =
      get_user_reputation exSt1 "alice" + 1 := by
  refine ⟨?_, ?_, ?_⟩
  · exact (resolve_claim_guards_and_idempotent initState "claim_1").1
      (Except.ok exResTrue) (by decide)
  · exact ((resolve_claim_guards_and_idempotent exSt1 "claim_1").2.2
      (Except.ok exResTrue) exStResolved (by rfl)).1 (Except.ok exResTrue)
  · exact ((resolve_claim_guards_and_idempotent exSt1 "claim_1").2.2
      (Except.ok exResTrue) exStResolved (by rfl)).2 exClaim1 (by decide)

/-! ## Claim C3 -/

/-- C3: the resolution transition is all-or-nothing.  When the fact-check
computation fails (oracle/consensus exception) or the agreed result lacks the
`"verdict"` key, `resolve_claim` propagates an error, and in the `Except`
embedding an error carries no successor state — the claim stays pending and
nothing is written (in the source, every raising site of `resolve_claim`
precedes the first storage write).  When it returns a state, all four
effects are present together: verdict and explanation written, checked flag
set, and the submitter's reputation incremented by one, with the claim
counter untouched. -/
theorem resolve_claim_atomic (st : TruthPost) (cid : String) :
    (∀ claim, tmGet st.claims cid = some claim → claim.has_been_checked = false →
      (∀ msg, resolve_claim st cid (Except.error msg) =
        Except.error (TPError.factCheckFailure msg)) ∧
      (∀ result, result.verdict = none →
        resolve_claim st cid (Except.ok result) =
          Except.error TPError.verdictKeyError)) ∧
    (∀ fc st', resolve_claim st cid fc = Except.ok st' →
      ∃ claim result v,
        tmGet st.claims cid = some claim ∧
        claim.has_been_checked = false ∧
        fc = Except.ok result ∧
        result.verdict = some v ∧
        tmGet st'.claims cid = some
          { claim with
              verdict := v
              explanation := result.explanation.getD ""
              has_been_checked := true } ∧
        get_user_reputation st' claim.submitter =
          get_user_reputation st claim.submitter + 1 ∧
        st'.claim_count = st.claim_count) := by
  constructor
  · intro claim hget hc
    constructor
    · intro msg
      simp [resolve_claim, hget, hc]
    · intro result hv
      simp [resolve_claim, hget, hc, hv]
  · intro fc st' hr
    obtain ⟨claim, result, v, hget, hc, hfc, hv, hst'⟩ := resolve_claim_ok_inv hr
    subst hst'
    refine ⟨claim, result, v, hget, hc, hfc, hv, ?_, ?_, rfl⟩
    · show tmGet (tmSet st.claims cid _) cid = _
      rw [tmGet_tmSet, if_pos rfl]
    · show (tmGet (repIncrement st.reputation claim.submitter)
        claim.submitter).getD 0 = (tmGet st.reputation claim.submitter).getD 0 + 1
      rw [tmGet_repIncrement]
      simp

/-- C3, witnessed at `exSt1`: a consensus failure and a missing-verdict
result both leave the call in an error, with no successor state. -/
theorem resolve_claim_atomic_witness :
    resolve_claim exSt1 "claim_1" (Except.error "no agreement") =
      Except.error (TPError.factCheckFailure "no agreement") ∧
    resolve_claim exSt1 "claim_1"
      (Except.ok { verdict := none, explanation := some "x" }) =
      Except.error TPError.verdictKeyError := by
  have h := (resolve_claim_atomic exSt1 "claim_1").1 exClaim1 (by decide) rfl
  exact ⟨h.1 "no agreement", h.2 { verdict := none, explanation := some "x" } rfl⟩

/-! ## Claim C4 -/

/-- C4: in every reachable state, the reputation recorded for an identity
equals the number of stored claims submitted by that identity whose checked
flag is true — the counting predicate (`checkedBy`) never inspects the
verdict, so a claim resolved `"false"` contributes exactly as much as one
resolved `"true"`. -/
theorem reputation_eq_checked_count (st : TruthPost) (h : Reachable st)
    (idy : String) : get_user_reputation st idy = checkedBy st.claims idy :=
  (reachable_inv h).repCount idy

/-- C4, witnessed at the reachable state `exStResolved`: `alice` has one
checked claim and reputation 1. -/
theorem reputation_eq_checked_count_witness :
    get_user_reputation exStResolved "alice" = checkedBy exStResolved.claims "alice" ∧
    get_user_reputation exStResolved "alice" = 1 :=
  ⟨reputation_eq_checked_count exStResolved reachable_exStResolved "alice",
   by decide⟩

/-! ## Claim C5 -/

/-- C5: once a claim's checked flag is true, no operation changes it — a
submission stores under a fresh identifier and a successful resolution only
targets an unchecked claim, so the checked claim is looked up unchanged
afterwards; and a successful `resolve_claim` writes only the target claim's
verdict, explanation and checked flag (id, text, source URL and submitter
are preserved), leaves every other claim and every other reputation entry
unchanged, and does not touch the claim counter. -/
theorem resolved_claim_immutable_frame (st : TruthPost) (h : Reachable st) :
    (∀ cid claim, tmGet st.claims cid = some claim →
      claim.has_been_checked = true →
      (∀ t u s, tmGet ((submit_claim st t u s).2).claims cid = some claim) ∧
      (∀ cid' fc st', resolve_claim st cid' fc = Except.ok st' →
        tmGet st'.claims cid = some claim)) ∧
    (∀ cid fc st', resolve_claim st cid fc = Except.ok st' →
      ∃ claim claim',
        tmGet st.claims cid = some claim ∧
        tmGet st'.claims cid = some claim' ∧
        claim'.id = claim.id ∧
        claim'.text = claim.text ∧
        claim'.source_url = claim.source_url ∧
        claim'.submitter = claim.submitter ∧
        claim'.has_been_checked = true ∧
        (∀ k, k ≠ cid → tmGet st'.claims k = tmGet st.claims k) ∧
        (∀ idy, idy ≠ claim.submitter →
          tmGet st'.reputation idy = tmGet st.reputation idy) ∧
        st'.claim_count = st.claim_count) := by
  constructor
  · intro cid claim hget hch
    constructor
    · intro t u s
      rw [submit_claim_snd]
      show tmGet (tmSet st.claims (claimKey (st.claim_count + 1)) _) cid = some claim
      rw [tmGet_tmSet]
      have hfresh : claimKey (st.claim_count + 1) ∉ st.claims.map Prod.fst :=
        claimKey_fresh st (reachable_inv h)
      have hne : cid ≠ claimKey (st.claim_count + 1) := by
        intro he
        exact hfresh (he ▸ tmGet_some_mem hget)
      rw [if_neg hne]
      exact hget
    · intro cid' fc st' hr
      obtain ⟨claim₁, result, v, hget₁, hc₁, hfc, hv, hst'⟩ := resolve_claim_ok_inv hr
      subst hst'
      show tmGet (tmSet st.claims cid' _) cid = some claim
      rw [tmGet_tmSet]
      have hne : cid ≠ cid' := by
        intro he
        subst he
        rw [hget] at hget₁
        injection hget₁ with h12
        rw [← h12, hch] at hc₁
        exact Bool.noConfusion hc₁
      rw [if_neg hne]
      exact hget
  · intro cid fc st' hr
    obtain ⟨claim, result, v, hget, hc, hfc, hv, hst'⟩ := resolve_claim_ok_inv hr
    subst hst'
    refine ⟨claim,
      { claim with
          verdict := v
          explanation := result.explanation.getD ""
          has_been_checked := true },
      hget, ?_, rfl, rfl, rfl, rfl, rfl, ?_, ?_, rfl⟩
    · show tmGet (tmSet st.claims cid _) cid = _
      rw [tmGet_tmSet, if_pos rfl]
    · intro k hk
      show tmGet (tmSet st.claims cid _) k = tmGet st.claims k
      rw [tmGet_tmSet, if_neg hk]
    · intro idy hidy
      show tmGet (repIncrement st.reputation claim.submitter) idy =
        tmGet st.reputation idy
      exact tmGet_repIncrement_ne _ _ _ hidy

/-- C5, witnessed: the checked claim of `exStResolved` is unchanged both by
a further submission and by the successful resolution of the second claim. -/
theorem resolved_claim_immutable_frame_witness :
    tmGet ((submit_claim exStResolved "x" "y" "bob").2).claims "claim_1" =
      some exClaimResolved ∧
    tmGet exSt2Resolved.claims "claim_1" = some exClaimResolved := by
  constructor
  · exact ((resolved_claim_immutable_frame exStResolved
      reachable_exStResolved).1 "claim_1" exClaimResolved (by decide) rfl).1
      "x" "y" "bob"
  · exact ((resolved_claim_immutable_frame exSt2 reachable_exSt2).1 "claim_1"
      exClaimResolved (by decide) rfl).2 "claim_2" (Except.ok exResFalse)
      exSt2Resolved (by rfl)

/-! ## Claim C6 -/

/-- C6: in any sequence of submissions from the initial state, after `n`
submissions the counter reads `n`, the identifier `claim_(n+1)` is not yet
in the store (never reused), and the `(n+1)`-th submission stores its claim
exactly under `claim_(n+1)` while leaving every other key untouched (no
overwrite) — identifiers are allocated sequentially from 1 with no gaps. -/
theorem claim_ids_sequential (l : List (String × String × String)) (n : Nat)
    (h : n < l.length) :
    (runSubmits initState (l.take n)).claim_count = n ∧
    tmGet (runSubmits initState (l.take n)).claims (claimKey (n + 1)) = none ∧
    tmGet (runSubmits initState (l.take (n + 1))).claims (claimKey (n + 1)) =
      some { id := claimKey (n + 1)
             text := (l.get ⟨n, h⟩).1
             verdict := "pending"
             explanation := ""
             source_url := (l.get ⟨n, h⟩).2.1
             submitter := (l.get ⟨n, h⟩).2.2
             has_been_checked := false } ∧
    (∀ k, k ≠ claimKey (n + 1) →
      tmGet (runSubmits initState (l.take (n + 1))).claims k =
        tmGet (runSubmits initState (l.take n)).claims k) := by
  have hcount : (runSubmits initState (l.take n)).claim_count = n := by
    rw [runSubmits_count]
    show initState.claim_count + (l.take n).length = n
    rw [List.length_take]
    show 0 + min n l.length = n
    omega
  have hre : Reachable (runSubmits initState (l.take n)) :=
    runSubmits_reachable _ _ Reachable.init
  have hfresh : claimKey (n + 1) ∉
      (runSubmits initState (l.take n)).claims.map Prod.fst := by
    have hf := claimKey_fresh _ (reachable_inv hre)
    rw [hcount] at hf
    exact hf
  have hnone : tmGet (runSubmits initState (l.take n)).claims (claimKey (n + 1)) =
      none := (tmGet_eq_none_iff _ _).mpr hfresh
  have htake : l.take (n + 1) = l.take n ++ [l.get ⟨n, h⟩] := by
    rw [List.take_succ, List.getElem?_eq_getElem h]
    rfl
  have hrun : runSubmits initState (l.take (n + 1)) =
      (submit_claim (runSubmits initState (l.take n)) (l.get ⟨n, h⟩).1
        (l.get ⟨n, h⟩).2.1 (l.get ⟨n, h⟩).2.2).2 := by
    rw [htake, runSubmits_append]
    rfl
  refine ⟨hcount, hnone, ?_, ?_⟩
  · rw [hrun, submit_claim_snd, hcount]
    rw [tmGet_tmSet, if_pos rfl]
  · intro k hk
    rw [hrun, submit_claim_snd, hcount]
    show tmGet (tmSet _ (claimKey (n + 1)) _) k = _
    rw [tmGet_tmSet, if_neg hk]

/-- C6, witnessed on a concrete two-element submission sequence. -/
theorem claim_ids_sequential_witness :
    (runSubmits initState (exSubs2.take 1)).claim_count = 1 ∧
    tmGet (runSubmits initState (exSubs2.take 1)).claims (claimKey 2) = none ∧
    tmGet (runSubmits initState (exSubs2.take 2)).claims (claimKey 2) =
      some { id := claimKey 2
             text := "c"
             verdict := "pending"
             explanation := ""
             source_url := "d"
             submitter := "s2"
             has_been_checked := false } := by
  have h := claim_ids_sequential exSubs2 1 (by decide)
  exact ⟨h.1, h.2.1, h.2.2.1⟩

/-! ## Claim C7 -/

/-- C7 counterexample: after ten submissions the `TreeMap` enumerates claims
in lexicographic key order, in which `"claim_10"` precedes `"claim_2"`; the
submission order (`claim_1 … claim_10`, as established by
`claim_ids_sequential`) differs from it, so `get_claims` does not return the
claims in insertion order. -/
theorem get_claims_not_insertion_order_cex :
    (get_claims (runSubmits initState exSubs10)).map Prod.fst =
      ["claim_1", "claim_10", "claim_2", "claim_3", "claim_4", "claim_5",
       "claim_6", "claim_7", "claim_8", "claim_9"] ∧
    (List.range 10).map (fun i => claimKey (i + 1)) =
      ["claim_1", "claim_2", "claim_3", "claim_4", "claim_5", "claim_6",
       "claim_7", "claim_8", "claim_9", "claim_10"] ∧
    (get_claims (runSubmits initState exSubs10)).map Prod.fst ≠
      (List.range 10).map (fun i => claimKey (i + 1)) := by
  exact ⟨by decide, by decide, by decide⟩

/-- C7 amended: `get_claims` returns all stored `(id, claim)` pairs, but the
enumeration is in ascending lexicographic id order (the `TreeMap`'s key
order), not in insertion order; the two orders agree only while at most
nine claims exist. -/
theorem get_claims_sorted_by_key (st : TruthPost) (h : Reachable st) :
    get_claims st = st.claims ∧
    ((get_claims st).map Prod.fst).Pairwise keyLt :=
  ⟨rfl, (reachable_inv h).sortedClaims⟩

/-- C7 amended, witnessed on the ten-submission state. -/
theorem get_claims_sorted_by_key_witness :
    ((get_claims (runSubmits initState exSubs10)).map Prod.fst).Pairwise keyLt :=
  (get_claims_sorted_by_key _
    (runSubmits_reachable exSubs10 initState Reachable.init)).2

/-! ## Claim C8 -/

/-- C8 counterexample: `submit_claim` stores the new claim under
`"claim_1"` but returns `None` (the method is annotated `-> None`); the
value returned to the caller is not the identifier the claim was stored
under. -/
theorem submit_claim_returns_none_cex :
    (submit_claim initState "t" "u" "alice").1 = none ∧
    tmGet (submit_claim initState "t" "u" "alice").2.claims "claim_1" ≠ none ∧
    (submit_claim initState "t" "u" "alice").1 ≠ some "claim_1" := by
  exact ⟨rfl, by decide, by decide⟩

/-- C8 amended: `submit_claim` stores the new pending claim under the next
sequential identifier `claim_(count+1)` — but returns `None` rather than
that identifier. -/
theorem submit_claim_stores_and_returns_none (st : TruthPost) (t u s : String) :
    (submit_claim st t u s).1 = none ∧
    tmGet (submit_claim st t u s).2.claims (claimKey (st.claim_count + 1)) =
      some { id := claimKey (st.claim_count + 1)
             text := t
             verdict := "pending"
             explanation := ""
             source_url := u
             submitter := s
             has_been_checked := false } := by
  constructor
  · rfl
  · rw [submit_claim_snd]
    show tmGet (tmSet st.claims (claimKey (st.claim_count + 1)) _) _ = _
    rw [tmGet_tmSet, if_pos rfl]

/-! ## Claim C9 -/

/-- C9: `get_user_reputation` is a total function; on an identity with no
entry in the reputation map it returns 0 (the `.get(..., 0)` default) and
never raises a not-found error. -/
theorem get_user_reputation_unknown_zero (st : TruthPost) (user : String)
    (h : tmGet st.reputation user = none) :
    get_user_reputation st user = 0 := by
  simp [get_user_reputation, h]

/-- C9, witnessed: `carol` has no entry anywhere, including in the resolved
state, and reads 0. -/
theorem get_user_reputation_unknown_zero_witness :
    tmGet exStResolved.reputation "carol" = none ∧
    get_user_reputation exStResolved "carol" = 0 :=
  ⟨by decide, get_user_reputation_unknown_zero exStResolved "carol" (by decide)⟩

/-! ## Claim C10 -/

/-- C10: an agreed result with a `"verdict"` key but no `"explanation"` key
does not make `resolve_claim` fail: `result.get("explanation", "")` defaults
to the empty string, and the resolution completes with the claim's
explanation set to `""`. -/
theorem resolve_claim_missing_explanation_defaults (st : TruthPost)
    (cid : String) (claim : Claim) (v : String)
    (hget : tmGet st.claims cid = some claim)
    (hc : claim.has_been_checked = false) :
    ∃ st', resolve_claim st cid
        (Except.ok { verdict := some v, explanation := none }) = Except.ok st' ∧
      tmGet st'.claims cid = some
        { claim with verdict := v, explanation := "", has_been_checked := true } := by
  refine ⟨{ st with
      claims := tmSet st.claims cid
        { claim with verdict := v, explanation := "", has_been_checked := true }
      reputation := repIncrement st.reputation claim.submitter }, ?_, ?_⟩
  · simp [resolve_claim, hget, hc]
  · rw [tmGet_tmSet, if_pos rfl]

/-- C10, witnessed at `exSt1` with verdict `"true"` and no explanation. -/
theorem resolve_claim_missing_explanation_defaults_witness :
    resolve_claim exSt1 "claim_1"
      (Except.ok { verdict := some "true", explanation := none }) =
      Except.ok exStNoExp ∧
    tmGet exStNoExp.claims "claim_1" = some
      { exClaim1 with
          verdict := "true"
          explanation := ""
          has_been_checked := true } := by
  obtain ⟨st', h1, h2⟩ := resolve_claim_missing_explanation_defaults exSt1
    "claim_1" exClaim1 "true" (by decide) rfl
  have h3 : Except.ok st' = Except.ok exStNoExp := h1.symm.trans (by rfl)
  injection h3 with h4
  subst h4
  exact ⟨h1, h2⟩
